import Mathlib

/-!
Verification development for the jpc object-graph RPC runtime.

The definitions below are a shallow embedding of the marshalling and
registry core found in `src/obj.js` (the `BaseProtocol` class, which is the
current implementation) and, where a claim concerns it, the earlier
module-level implementation in `src/unnamed/part_001` (namespace `V1`).

Modelling conventions:
* JavaScript object identity is represented by an `Addr` tag carried on
  every object-like value (`vobj`, `vstub`, `vfunc`).  Two values denote
  the same JavaScript object exactly when they carry the same tag.
* JavaScript `Map` / `WeakMap` registries are association lists whose
  `set` operation replaces an existing binding in place and otherwise
  appends, like the JavaScript `Map.set`.
* `WeakRef` is modelled as the referenced value together with an `alive`
  flag telling whether `deref()` still produces the target.
* Thrown assertion failures are `Except.error` values of type `Err`; each
  constructor corresponds to one `assert` / `throw` site of the source.
* `Math.random()`-based ID generation is modelled by a counter; the
  source's collision loop guarantees freshness, which the counter provides
  by construction.
-/

namespace Jpc

/-- Identity tag of a JavaScript object (reference identity). -/
abbrev Addr := Nat

/-- Wire object ID: an opaque printable token (a decimal string in the source). -/
abbrev ObjId := String

/-- Kind of an own property of a class prototype, as seen through
`Object.getOwnPropertyDescriptor`: a function-valued data property, an
accessor (with or without a setter), or a plain data property. -/
inductive MemberKind where
  | method : MemberKind
  | getterM : Bool → MemberKind
  | dataMember : MemberKind
deriving DecidableEq, Repr

/-- A named own property of a prototype object. -/
structure Member where
  name : String
  kind : MemberKind
deriving DecidableEq, Repr

/-- A prototype chain.  `plainRoot` is `Object.prototype` (the prototype of
plain records); `node className hasSymbolIterator members parent` is the
prototype of a user class: `className` is what `getClassName` reports for
instances, `hasSymbolIterator` tells whether `Symbol.iterator in proto`
holds, `members` are the string-keyed own properties
(`Object.getOwnPropertyNames` does not report symbol keys), and `parent` is
`Object.getPrototypeOf` of this prototype. -/
inductive Proto where
  | plainRoot : Proto
  | node : String → Bool → List Member → Proto → Proto
deriving DecidableEq, Repr

/-- `getClassName(x)` for a value `x` whose prototype is `p`:
the prototype's string tag or constructor name; a falsy (empty) name falls
back to "Object". -/
def protoName : Proto → String
  | .plainRoot => "Object"
  | .node c _ _ _ => if c = "" then "Object" else c

/-- `Symbol.iterator in proto`: searches the whole prototype chain. -/
def protoChainHasSymIterator : Proto → Bool
  | .plainRoot => false
  | .node _ hasIter _ parent => hasIter || protoChainHasSymIterator parent

/-- `key in proto` for a string `key`: searches own string-keyed properties
and then the prototype chain. -/
def protoChainHasKey (key : String) : Proto → Bool
  | .plainRoot => false
  | .node _ _ members parent =>
      members.any (fun m => m.name == key) || protoChainHasKey key parent

/-- In-memory JavaScript values, as trees tagged with identity.
`vobj a p props` is an ordinary local object with identity `a`, prototype
`p` and own properties `props`; each own property is
`(name, isAccessor, value)` where `value` is what reading the property
yields.  `vstub a id c props` is a stub produced by `makeStub`
(its prototype chain roots in a `RemoteClass` instance, so
`x instanceof RemoteClass` holds); `id` is its own `id` property.
`vfunc a` is a function value (`typeof x == "function"`), including the
callable stubs produced by `makeCallable`. -/
inductive JVal where
  | vstr : String → JVal
  | vnum : Int → JVal
  | vbool : Bool → JVal
  | vnull : JVal
  | vundef : JVal
  | varr : List JVal → JVal
  | vfunc : Addr → JVal
  | vstub : Addr → ObjId → String → List (String × JVal) → JVal
  | vobj : Addr → Proto → List (String × Bool × JVal) → JVal
deriving Repr

/-- The identity tag of an object-like value. -/
def addrOf : JVal → Option Addr
  | .vfunc a => some a
  | .vstub a _ _ _ => some a
  | .vobj a _ _ => some a
  | _ => none

/-- `typeof v == "function"`. -/
def isFuncVal : JVal → Bool
  | .vfunc _ => true
  | _ => false

/-- JSON primitive (string, number, boolean, null). -/
def isPrim : JVal → Bool
  | .vstr _ => true
  | .vnum _ => true
  | .vbool _ => true
  | .vnull => true
  | _ => false

/-- `name.startsWith "_"`: with the one-character prefix "_" this is
exactly the test that the first character is an underscore, stated here on
the character list so that it evaluates on literals. -/
def startsWithUnderscore (n : String) : Bool := n.data.head? == some '_'

/-- Identity tag of an object-like value, `0` for non-objects
(only used on object-like values). -/
def rootAddr : JVal → Addr
  | .vfunc a => a
  | .vstub a _ _ _ => a
  | .vobj a _ _ => a
  | _ => 0

/-- Wire values (the JSON payloads of §4.B).  `wobj idLocal idRemote
plainObject className properties` is a JSON object carrying the given
optional fields; the incoming marshaller dispatches on which fields are
present and truthy, exactly like the source reads `obj.idLocal`,
`obj.idRemote`, `obj.plainObject`, `obj.className`, `obj.properties`. -/
inductive Wire where
  | wstr : String → Wire
  | wnum : Int → Wire
  | wbool : Bool → Wire
  | wnull : Wire
  | wundef : Wire
  | warr : List Wire → Wire
  | wobj : Option ObjId → Option ObjId → Option (List (String × Wire)) →
      Option String → Option (List (String × Wire)) → Wire
deriving Repr

/-- A class description as sent on the `class` verb (each message carries a
singleton array `[descr]` in the source).  `getters` entries are
`(name, hasSetter)`; `propNames` is the source's `properties` list of
declared data-property names. -/
structure ClassDescr where
  className : String
  iterator : Option String
  extendsC : Option String
  functions : List String
  getters : List (String × Bool)
  propNames : List String
deriving DecidableEq, Repr

/-- Abstract error kinds; each corresponds to one `assert`/`throw` site. -/
inductive Err where
  | unknownLocal : ObjId → Err
  | duplicateRemote : ObjId → Err
  | unknownRemoteClass : Option String → Err
  | noClassName : Err
deriving DecidableEq, Repr

/-- An entry of `_localIDsToObjects`: either the object itself (strong) or
a `WeakRef` to it whose target may or may not still be alive. -/
inductive LocalEntry where
  | strong : JVal → LocalEntry
  | weak : JVal → Bool → LocalEntry
deriving Repr

/-- The mutable state of one `BaseProtocol` instance: the four registry
structures, the set of class names already described to the peer, and the
two allocation counters (object identity and wire ID generation). -/
structure St where
  localObjectsToIDs : List (Addr × ObjId)
  localIDsToObjects : List (ObjId × LocalEntry)
  localClasses : List String
  remoteClasses : List String
  remoteObjects : List (ObjId × JVal × Bool)
  nextAddr : Addr
  nextIdNum : Nat
deriving Repr

/-! Association-list primitives with the JavaScript `Map` semantics:
`aset` replaces an existing binding in place and otherwise appends. -/

/-- `Map.get`. -/
def alookup {κ α : Type} [DecidableEq κ] : List (κ × α) → κ → Option α
  | [], _ => none
  | (k, v) :: rest, key => if k = key then some v else alookup rest key

/-- `Map.set`. -/
def aset {κ α : Type} [DecidableEq κ] : List (κ × α) → κ → α → List (κ × α)
  | [], key, v => [(key, v)]
  | (k, w) :: rest, key, v =>
      if k = key then (key, v) :: rest else (k, w) :: aset rest key v

/-- `Map.delete`. -/
def adel {κ α : Type} [DecidableEq κ] : List (κ × α) → κ → List (κ × α)
  | [], _ => []
  | (k, w) :: rest, key => if k = key then rest else (k, w) :: adel rest key

/-- `generateNewObjID` (`src/obj.js` 917-923). -/
def generateNewObjID (st : St) : ObjId × St :=
  (toString st.nextIdNum, { st with nextIdNum := st.nextIdNum + 1 })

/-- `getRemoteObject(id)` (`src/obj.js` 929-932): dereference the `WeakRef`
without error, `none` when the ID is unknown or the stub was collected. -/
def getRemoteObject (st : St) (id : ObjId) : Option JVal :=
  match alookup st.remoteObjects id with
  | some (v, alive) => if alive then some v else none
  | none => none

/-- `getLocalObject(id)` (`src/obj.js` 938-947): fails when the ID is
unknown or the weak target was collected; a live weak entry is promoted
back to strong. -/
def getLocalObject (st : St) (id : ObjId) : Except Err (JVal × St) :=
  match alookup st.localIDsToObjects id with
  | none => .error (.unknownLocal id)
  | some (.strong v) => .ok (v, st)
  | some (.weak v alive) =>
      if alive then
        .ok (v, { st with
          localIDsToObjects := aset st.localIDsToObjects id (.strong v) })
      else .error (.unknownLocal id)

/-- `getOrCreateIDForLocalObject(obj)` (`src/obj.js` 953-962): reuse the ID
recorded in the weak map `_localObjectsToIDs`, otherwise generate a fresh
one (the finalization-registry hook of the source carries no state here);
in both cases (re)bind `_localIDsToObjects[id]` strongly to the object.
Only ever called on object or function values, so the `addrOf` fallback
is unreachable. -/
def getOrCreateIDForLocalObject (st : St) (v : JVal) : ObjId × St :=
  match addrOf v with
  | none => ("", st)
  | some a =>
      match alookup st.localObjectsToIDs a with
      | some id =>
          (id, { st with localIDsToObjects := aset st.localIDsToObjects id (.strong v) })
      | none =>
          let p := generateNewObjID st
          let st2 := { p.2 with localObjectsToIDs := aset p.2.localObjectsToIDs a p.1 }
          (p.1, { st2 with localIDsToObjects := aset st2.localIDsToObjects p.1 (.strong v) })

/-- `addRemoteObject(id, obj)` (`src/obj.js` 968-973): asserts that no live
stub exists under this ID, then stores a `WeakRef` to the new stub (and
registers the finalization hook, which carries no state here). -/
def addRemoteObject (st : St) (id : ObjId) (v : JVal) : Except Err St :=
  match getRemoteObject st id with
  | some _ => .error (.duplicateRemote id)
  | none => .ok { st with remoteObjects := aset st.remoteObjects id (v, true) }

/-- `deleteLocalObject(id)` (`src/obj.js` 980-988), the inbound `del`
handler: asserts the entry exists; a weak entry is left alone; a strong
entry is demoted to a weak reference to the same object, kept in case the
object gets promoted again.  The entry is never removed. -/
def deleteLocalObject (st : St) (id : ObjId) : Except Err St :=
  match alookup st.localIDsToObjects id with
  | none => .error (.unknownLocal id)
  | some (.weak _ _) => .ok st
  | some (.strong v) =>
      .ok { st with localIDsToObjects := aset st.localIDsToObjects id (.weak v true) }

/-- Truthiness of a possibly absent string field (`if (obj.idLocal)`):
present and nonempty. -/
def truthyS : Option String → Bool
  | some s => s != ""
  | none => false

/-! The incoming marshaller `mapIncomingObjects` (`src/obj.js` 636-667)
with `makeStub` (546-556) and `makeCallable` (558-565).

`makeStub` creates the stub (a fresh identity `a` with the class prototype),
sets its `id`, registers it via `addRemoteObject`, and only then assigns the
unmarshalled properties.  Values are immutable trees here, so the registry
keeps the stub as registered (identity `a`, no properties yet) while the
returned value carries the assigned properties; both share the identity
tag `a`, which is what reference comparisons observe. -/

mutual

def mapIncomingObjects (st : St) : Wire → Except Err (JVal × St)
  | .wstr s => .ok (.vstr s, st)
  | .wnum n => .ok (.vnum n, st)
  | .wbool b => .ok (.vbool b, st)
  | .wnull => .ok (.vnull, st)
  | .wundef => .ok (.vundef, st)
  | .warr ws => do
      let r ← mapIncomingList st ws
      .ok (.varr r.1, r.2)
  | .wobj idLocal idRemote plain className properties =>
      if truthyS idLocal then
        match getRemoteObject st (idLocal.getD "") with
        | some stub => .ok (stub, st)
        | none =>
            if className = some "Function" then
              -- makeCallable: a fresh callable closure, registered under the ID
              let f : JVal := .vfunc st.nextAddr
              let st1 := { st with nextAddr := st.nextAddr + 1 }
              match addRemoteObject st1 (idLocal.getD "") f with
              | .ok st2 => .ok (f, st2)
              | .error e => .error e
            else
              makeStub st (idLocal.getD "") className properties
      else if truthyS idRemote then
        getLocalObject st (idRemote.getD "")
      else
        match plain with
        | some fields => do
            -- `let plainObject = {}`: fresh identity, then assign each field
            let a := st.nextAddr
            let st1 := { st with nextAddr := st.nextAddr + 1 }
            let r ← mapIncomingFields st1 fields
            .ok (.vobj a .plainRoot (r.1.map (fun e => (e.1, false, e.2))), r.2)
        | none => .ok (.vundef, st)
termination_by w => sizeOf w
decreasing_by all_goals simp_arith [Option.getD]

def makeStub (st : St) (i : ObjId) (className : Option String)
    (properties : Option (List (String × Wire))) : Except Err (JVal × St) :=
  match className with
  | some c =>
      if st.remoteClasses.contains c then
        let a := st.nextAddr
        let st1 := { st with nextAddr := st.nextAddr + 1 }
        match addRemoteObject st1 i (.vstub a i c []) with
        | .ok st2 => do
            let r ← mapIncomingFields st2 (properties.getD [])
            .ok (.vstub a i c r.1, r.2)
        | .error e => .error e
      else .error (.unknownRemoteClass (some c))
  | none => .error (.unknownRemoteClass none)
termination_by sizeOf className + sizeOf properties
decreasing_by all_goals cases properties <;> simp_arith [Option.getD]

def mapIncomingList (st : St) : List Wire → Except Err (List JVal × St)
  | [] => .ok ([], st)
  | w :: ws => do
      let r1 ← mapIncomingObjects st w
      let r2 ← mapIncomingList r1.2 ws
      .ok (r1.1 :: r2.1, r2.2)
termination_by l => sizeOf l
decreasing_by all_goals simp_arith

def mapIncomingFields (st : St) : List (String × Wire) → Except Err (List (String × JVal) × St)
  | [] => .ok ([], st)
  | (n, w) :: rest => do
      let r1 ← mapIncomingObjects st w
      let r2 ← mapIncomingFields r1.2 rest
      .ok ((n, r1.1) :: r2.1, r2.2)
termination_by l => sizeOf l
decreasing_by all_goals simp_arith

end

/-! The outgoing side: `sendClassDescription` (`src/obj.js` 845-898),
`createObjectDescription` (815-843) and `mapOutgoingObjects` (764-798).
Each element of the `List ClassDescr` component of a result is one `class`
verb sent (with a singleton array payload) and awaited, in list order,
strictly before the function returns its wire value. -/

/-- The iterator tag of a class description (`src/obj.js` 869-873).  The
source tests `Symbol.asyncInterator in proto` — a misspelling of
`asyncIterator`, so the property key actually looked up is the string
"undefined" — and otherwise `Symbol.iterator in proto`. -/
def iterTagOf (p : Proto) : Option String :=
  if protoChainHasKey "undefined" p then some "asyncIterator"
  else if protoChainHasSymIterator p then some "iterator"
  else none

/-- The member loop of `sendClassDescription` (`src/obj.js` 874-895):
walk the prototype's own property names in order, skipping names starting
with "_" and "constructor"; function-valued data properties go to
`functions`, accessors to `getters` (with the has-setter flag), the rest
to `properties`.  Returns `(functions, getters, properties)`. -/
def descrLists : List Member → List String × List (String × Bool) × List String
  | [] => ([], [], [])
  | m :: rest =>
      let r := descrLists rest
      if startsWithUnderscore m.name || m.name == "constructor" then r
      else
        match m.kind with
        | .method => (m.name :: r.1, r.2.1, r.2.2)
        | .getterM hs => (r.1, (m.name, hs) :: r.2.1, r.2.2)
        | .dataMember => (r.1, r.2.1, m.name :: r.2.2)

/-- `sendClassDescription(className, instance)` (`src/obj.js` 845-898),
called with `p` = `Object.getPrototypeOf(instance)`.  Skips classes already
recorded in `_localClasses`; otherwise records the name first, then — when
`getClassName(proto)` is not "Object" — recursively sends the parent class
description (awaiting it), and finally sends its own description.  The
returned list is the sequence of `class` messages sent, in order. -/
def sendClassDescription (st : St) (c : String) : Proto → List ClassDescr × St
  | .plainRoot =>
      -- getClassName(proto) = "Object": no extends; the own names of
      -- Object.prototype are all built-in functions, not modelled
      if st.localClasses.contains c then ([], st)
      else
        (([{ className := c, iterator := iterTagOf .plainRoot, extendsC := none,
             functions := [], getters := [], propNames := [] }] : List ClassDescr),
         { st with localClasses := c :: st.localClasses })
  | .node cn hasIter members parent =>
      if st.localClasses.contains c then ([], st)
      else
        let st1 := { st with localClasses := c :: st.localClasses }
        let ls := descrLists members
        let base : ClassDescr :=
          { className := c, iterator := iterTagOf (.node cn hasIter members parent),
            extendsC := none, functions := ls.1, getters := ls.2.1, propNames := ls.2.2 }
        if protoName parent = "Object" then
          ([base], st1)
        else
          let pr := sendClassDescription st1 (protoName parent) parent
          (pr.1 ++ [{ base with extendsC := some (protoName parent) }], pr.2)

mutual

def mapOutgoingObjects (st : St) : JVal → Except Err (Wire × List ClassDescr × St)
  | .vstr s => .ok (.wstr s, [], st)
  | .vnum n => .ok (.wnum n, [], st)
  | .vbool b => .ok (.wbool b, [], st)
  | .vnull => .ok (.wnull, [], st)
  | .vundef => .ok (.wundef, [], st)
  | .varr xs => do
      let r ← mapOutgoingList st xs
      .ok (.warr r.1, r.2.1, r.2.2)
  | .vfunc a =>
      -- `let id = getOrCreate...` then `{idLocal: getOrCreate..., className: "Function"}`:
      -- the source calls getOrCreateIDForLocalObject twice; the first result is unused
      let p1 := getOrCreateIDForLocalObject st (.vfunc a)
      let p2 := getOrCreateIDForLocalObject p1.2 (.vfunc a)
      .ok (.wobj (some p2.1) none none (some "Function") none, [], p2.2)
  | .vstub _ i _ _ =>
      -- `obj instanceof RemoteClass`: return it to its owner as {idRemote: obj.id}
      .ok (.wobj none (some i) none none none, [], st)
  | .vobj a p props =>
      if protoName p = "Object" then do
        -- plain record: {plainObject: every enumerable property, mapped}
        let r ← mapOutgoingPlainFields st props
        .ok (.wobj none none (some r.1) none none, r.2.1, r.2.2)
      else
        let pid := getOrCreateIDForLocalObject st (.vobj a p props)
        createObjectDescription pid.2 p props pid.1
termination_by v => sizeOf v
decreasing_by all_goals simp_arith

def createObjectDescription (st : St) (p : Proto) (props : List (String × Bool × JVal))
    (id : ObjId) : Except Err (Wire × List ClassDescr × St) :=
  -- className = getClassName(obj), which is always truthy, so the assert passes
  let c := protoName p
  let pr := if st.localClasses.contains c then ([], st) else sendClassDescription st c p
  do
    let r ← mapDescrFields pr.2 props
    -- `props` stays null when no own property passes the filter
    let properties := if r.1.isEmpty then none else some r.1
    .ok (.wobj (some id) none none (some c) properties, pr.1 ++ r.2.1, r.2.2)
termination_by sizeOf p + sizeOf props
decreasing_by all_goals cases p <;> simp_arith

def mapOutgoingList (st : St) : List JVal → Except Err (List Wire × List ClassDescr × St)
  | [] => .ok ([], [], st)
  | v :: vs => do
      let r1 ← mapOutgoingObjects st v
      let r2 ← mapOutgoingList r1.2.2 vs
      .ok (r1.1 :: r2.1, r1.2.1 ++ r2.2.1, r2.2.2)
termination_by l => sizeOf l
decreasing_by all_goals simp_arith

def mapOutgoingPlainFields (st : St) :
    List (String × Bool × JVal) → Except Err (List (String × Wire) × List ClassDescr × St)
  | [] => .ok ([], [], st)
  | (n, _, v) :: rest => do
      let r1 ← mapOutgoingObjects st v
      let r2 ← mapOutgoingPlainFields r1.2.2 rest
      .ok ((n, r1.1) :: r2.1, r1.2.1 ++ r2.2.1, r2.2.2)
termination_by l => sizeOf l
decreasing_by all_goals simp_arith

def mapDescrFields (st : St) :
    List (String × Bool × JVal) → Except Err (List (String × Wire) × List ClassDescr × St)
  | [] => .ok ([], [], st)
  | (n, isAcc, v) :: rest =>
      -- skip names starting with "_", accessors, and function-valued properties
      if startsWithUnderscore n || isAcc || isFuncVal v then mapDescrFields st rest
      else do
        let r1 ← mapOutgoingObjects st v
        let r2 ← mapDescrFields r1.2.2 rest
        .ok ((n, r1.1) :: r2.1, r1.2.1 ++ r2.2.1, r2.2.2)
termination_by l => sizeOf l
decreasing_by all_goals simp_arith

end

namespace V1

/-! Embedding of the earlier module-level implementation in
`src/unnamed/part_001` (its first copy, lines 300-423 and 442-486):
`mapOutgoingObjects`, `createObjectDescription`, `sendClassDescription` and
the ID registry `gLocalIDsToObjects` / `gLocalObjectsToIDs` /
`gLocalClasses`.  This version keeps strong references only, has no
`plainObject` wrapper (a plain record is emitted as a raw JSON object), no
function marshalling (a function value falls through every branch and the
marshaller returns `undefined`), and its object descriptions use the key
`id` rather than `idLocal`. -/

/-- `obj.constructor.name`, with no string-tag or "Object" fallback. -/
def protoCtorName : Proto → String
  | .plainRoot => "Object"
  | .node c _ _ _ => c

/-- Wire values of the part_001 protocol.  `wjson` is a raw JSON object (the
plain-record branch emits it without a wrapper); `wrefLocal id` is the bare
`{idLocal: id}` reference; `wrefRemote id` is `{idRemote: id}`;
`wdescr id className properties` is the full `{id, className, properties}`
object description. -/
inductive WireV1 where
  | wstr : String → WireV1
  | wnum : Int → WireV1
  | wbool : Bool → WireV1
  | wnull : WireV1
  | wundef : WireV1
  | warr : List WireV1 → WireV1
  | wjson : List (String × WireV1) → WireV1
  | wrefRemote : ObjId → WireV1
  | wrefLocal : ObjId → WireV1
  | wdescr : ObjId → String → Option (List (String × WireV1)) → WireV1
deriving Repr

/-- A class description of the part_001 protocol (no iterator tag). -/
structure ClassDescrV1 where
  className : String
  extendsC : Option String
  functions : List String
  getters : List (String × Bool)
  propNames : List String
deriving DecidableEq, Repr

/-- State of the part_001 module: `gLocalIDsToObjects` (strong),
`gLocalObjectsToIDs`, `gLocalClasses`, and the ID counter standing in for
`generateObjID`'s random draw with collision loop. -/
structure StV1 where
  localIDsToObjects : List (ObjId × JVal)
  localObjectsToIDs : List (Addr × ObjId)
  localClasses : List String
  nextIdNum : Nat
deriving Repr

/-- `getExistingIDForLocalObject(obj)` (`part_001` 470-472). -/
def getExistingIDForLocalObject (st : StV1) (v : JVal) : Option ObjId :=
  match addrOf v with
  | none => none
  | some a => alookup st.localObjectsToIDs a

/-- `getNewIDForLocalObject(obj)` (`part_001` 478-486): generate a fresh ID
and register the object in both maps.  Only ever called on object values,
so the `addrOf` fallback is unreachable. -/
def getNewIDForLocalObject (st : StV1) (v : JVal) : ObjId × StV1 :=
  match addrOf v with
  | none => ("", st)
  | some a =>
      let id := toString st.nextIdNum
      (id, { st with
        nextIdNum := st.nextIdNum + 1,
        localIDsToObjects := aset st.localIDsToObjects id v,
        localObjectsToIDs := aset st.localObjectsToIDs a id })

/-- `sendClassDescription(className, instance)` (`part_001` 375-423), with
`p` = `Object.getPrototypeOf(instance)`.  Marks the class sent first, then
recursively sends the parent description when the parent prototype's
constructor name is not "Object", then sends its own description (the
member loop is the same filter as the current version's, embodied by
`descrLists`). -/
def sendClassDescription (st : StV1) (c : String) : Proto → List ClassDescrV1 × StV1
  | .plainRoot =>
      if st.localClasses.contains c then ([], st)
      else
        (([{ className := c, extendsC := none,
             functions := [], getters := [], propNames := [] }] : List ClassDescrV1),
         { st with localClasses := c :: st.localClasses })
  | .node _ _ members parent =>
      if st.localClasses.contains c then ([], st)
      else
        let st1 := { st with localClasses := c :: st.localClasses }
        let ls := descrLists members
        let base : ClassDescrV1 :=
          { className := c, extendsC := none,
            functions := ls.1, getters := ls.2.1, propNames := ls.2.2 }
        if protoCtorName parent = "Object" then
          ([base], st1)
        else
          let pr := sendClassDescription st1 (protoCtorName parent) parent
          (pr.1 ++ [{ base with extendsC := some (protoCtorName parent) }], pr.2)

mutual

/-- `mapOutgoingObjects(value)` (`part_001` 300-332).  A value that is
neither primitive, array nor object (i.e. a function) matches no branch
and the marshaller returns `undefined`. -/
def mapOutgoingObjects (st : StV1) : JVal → Except Err (WireV1 × List ClassDescrV1 × StV1)
  | .vstr s => .ok (.wstr s, [], st)
  | .vnum n => .ok (.wnum n, [], st)
  | .vbool b => .ok (.wbool b, [], st)
  | .vnull => .ok (.wnull, [], st)
  | .vundef => .ok (.wundef, [], st)
  | .varr xs => do
      let r ← mapOutgoingList st xs
      .ok (.warr r.1, r.2.1, r.2.2)
  | .vfunc _ => .ok (.wundef, [], st)
  | .vstub _ i _ _ =>
      -- `obj instanceof RemoteClass`: {idRemote: obj.id}
      .ok (.wrefRemote i, [], st)
  | .vobj a p props =>
      if protoCtorName p = "Object" then do
        -- `obj.constructor.name == "Object"`: emit a raw JSON object
        let r ← mapJsonFields st props
        .ok (.wjson r.1, r.2.1, r.2.2)
      else
        match alookup st.localObjectsToIDs a with
        | some id =>
            -- known object: bare reference {idLocal: id}
            .ok (.wrefLocal id, [], st)
        | none =>
            let pid := getNewIDForLocalObject st (.vobj a p props)
            createObjectDescription pid.2 p props pid.1
termination_by v => sizeOf v
decreasing_by all_goals simp_arith

/-- `createObjectDescription(obj, id)` (`part_001` 349-373): asserts the
constructor name is truthy, sends the class description when not yet sent,
then collects the own enumerable properties whose name does not start with
"_" and whose value is not a function, recursively marshalled; `props`
stays null when no property qualifies. -/
def createObjectDescription (st : StV1) (p : Proto) (props : List (String × Bool × JVal))
    (id : ObjId) : Except Err (WireV1 × List ClassDescrV1 × StV1) :=
  let c := protoCtorName p
  if c = "" then .error .noClassName
  else
    let pr := if st.localClasses.contains c then ([], st) else sendClassDescription st c p
    do
      let r ← mapDescrFields pr.2 props
      let properties := if r.1.isEmpty then none else some r.1
      .ok (.wdescr id c properties, pr.1 ++ r.2.1, r.2.2)
termination_by sizeOf p + sizeOf props
decreasing_by all_goals cases p <;> simp_arith

def mapOutgoingList (st : StV1) : List JVal → Except Err (List WireV1 × List ClassDescrV1 × StV1)
  | [] => .ok ([], [], st)
  | v :: vs => do
      let r1 ← mapOutgoingObjects st v
      let r2 ← mapOutgoingList r1.2.2 vs
      .ok (r1.1 :: r2.1, r1.2.1 ++ r2.2.1, r2.2.2)
termination_by l => sizeOf l
decreasing_by all_goals simp_arith

/-- The `for (let propName in obj)` loop of the raw-JSON branch: every
enumerable property is read and marshalled. -/
def mapJsonFields (st : StV1) :
    List (String × Bool × JVal) → Except Err (List (String × WireV1) × List ClassDescrV1 × StV1)
  | [] => .ok ([], [], st)
  | (n, _, v) :: rest => do
      let r1 ← mapOutgoingObjects st v
      let r2 ← mapJsonFields r1.2.2 rest
      .ok ((n, r1.1) :: r2.1, r1.2.1 ++ r2.2.1, r2.2.2)
termination_by l => sizeOf l
decreasing_by all_goals simp_arith

/-- The property loop of `createObjectDescription`: skip names starting
with "_" and function-valued properties (accessor values are read). -/
def mapDescrFields (st : StV1) :
    List (String × Bool × JVal) → Except Err (List (String × WireV1) × List ClassDescrV1 × StV1)
  | [] => .ok ([], [], st)
  | (n, _, v) :: rest =>
      if startsWithUnderscore n || isFuncVal v then mapDescrFields st rest
      else do
        let r1 ← mapOutgoingObjects st v
        let r2 ← mapDescrFields r1.2.2 rest
        .ok ((n, r1.1) :: r2.1, r1.2.1 ++ r2.2.1, r2.2.2)
termination_by l => sizeOf l
decreasing_by all_goals simp_arith

end

end V1

/-! Derived notions used to state the verified properties. -/

/-- The class names that `sendClassDescription` walks for the prototype
chain of a classed object, child first: the head is the object's own class
name, and the walk stops before a parent whose `getClassName` is
"Object". -/
def chainNames (p : Proto) : List String :=
  match p with
  | .plainRoot => []
  | .node _ _ _ parent =>
      protoName p :: (if protoName parent = "Object" then [] else chainNames parent)

/-- One element of the outgoing message sequence produced while marshalling
a value: a `class` verb (singleton-array payload, awaited before the
marshaller continues) or the wire value of the marshalled instance itself,
transmitted by the caller after the marshaller returns. -/
inductive Msg where
  | classMsg : ClassDescr → Msg
  | instanceMsg : Wire → Msg
deriving Repr

/-- The message sequence observable on the wire for one marshalling: every
`class` message of the trace, in order, followed by the payload carrying
the wire value. -/
def emittedSeq (tr : List ClassDescr) (w : Wire) : List Msg :=
  tr.map Msg.classMsg ++ [Msg.instanceMsg w]

mutual

/-- Structural equality of JSON-like data, ignoring object identity:
equal primitives, or plain records with pointwise structurally equal
fields.  (Other values never compare equal; the round-trip property only
concerns plain data.) -/
def structEq : JVal → JVal → Bool
  | .vstr s, .vstr t => s == t
  | .vnum n, .vnum m => n == m
  | .vbool b, .vbool c => b == c
  | .vnull, .vnull => true
  | .vobj _ .plainRoot ps, .vobj _ .plainRoot qs => structEqFields ps qs
  | _, _ => false

def structEqFields : List (String × Bool × JVal) → List (String × Bool × JVal) → Bool
  | [], [] => true
  | (n, g, v) :: ps, (m, h, w) :: qs =>
      n == m && g == h && structEq v w && structEqFields ps qs
  | _, _ => false

end

mutual

/-- A plain record in the sense of the spec: an object whose class name is
the ambient "Object", whose own properties are data properties holding
JSON primitives or nested plain records. -/
def isPlainRec : JVal → Bool
  | .vobj _ .plainRoot ps => plainFields ps
  | _ => false

def plainFields : List (String × Bool × JVal) → Bool
  | [] => true
  | (_, g, v) :: rest => !g && (isPrim v || isPlainRec v) && plainFields rest

end

/-- `st1` is `st0` after some allocations: no registry or class-set change,
only the identity counter may have advanced. -/
def OnlyAllocates (st0 st1 : St) : Prop :=
  st1 = { st0 with nextAddr := st1.nextAddr } ∧ st0.nextAddr ≤ st1.nextAddr

/-- The operations that touch the remote-object registry: `addRemoteObject`
(on stub creation), the finalization hook that erases the entry once the
stub is collected, and the host GC clearing a `WeakRef` target. -/
inductive RemoteOp where
  | add : ObjId → JVal → RemoteOp
  | finalize : ObjId → RemoteOp
  | gcClear : ObjId → RemoteOp

/-- Apply one remote-registry operation.  A failing `addRemoteObject`
(`DuplicateRemote` assertion) throws and leaves the registry unchanged. -/
def applyRemoteOp (st : St) : RemoteOp → St
  | .add i v =>
      match addRemoteObject st i v with
      | .ok st1 => st1
      | .error _ => st
  | .finalize i => { st with remoteObjects := adel st.remoteObjects i }
  | .gcClear i =>
      match alookup st.remoteObjects i with
      | some (v, _) => { st with remoteObjects := aset st.remoteObjects i (v, false) }
      | none => st

/-- Run a sequence of remote-registry operations. -/
def runRemoteOps (st : St) (ops : List RemoteOp) : St :=
  ops.foldl applyRemoteOp st

/-- Round-trip property of one value: marshalling out succeeds with no
class messages and no state change (plain data registers nothing); for a
plain record, the wire form is `{plainObject: m}`; and unmarshalling the
wire form on any state yields a structurally equal value, touching nothing
but the allocation counter, with a plain record materialized at the fresh
identity `stI.nextAddr`. -/
def PlainOutIn (v : JVal) : Prop :=
  ∀ stO : St, ∃ w : Wire,
    mapOutgoingObjects stO v = .ok (w, [], stO) ∧
    (isPlainRec v = true → ∃ m, w = .wobj none none (some m) none none) ∧
    ∀ stI : St, ∃ (v2 : JVal) (st2 : St),
      mapIncomingObjects stI w = .ok (v2, st2) ∧
      structEq v v2 = true ∧
      OnlyAllocates stI st2 ∧
      (isPlainRec v = true → rootAddr v2 = stI.nextAddr)

/-- Round-trip property of a plain record's field list. -/
def PlainFieldsOutIn (ps : List (String × Bool × JVal)) : Prop :=
  ∀ stO : St, ∃ ms : List (String × Wire),
    mapOutgoingPlainFields stO ps = .ok (ms, [], stO) ∧
    ∀ stI : St, ∃ (fs : List (String × JVal)) (st2 : St),
      mapIncomingFields stI ms = .ok (fs, st2) ∧
      structEqFields ps (fs.map (fun e => (e.1, false, e.2))) = true ∧
      OnlyAllocates stI st2

/-! Supporting lemmas about the association-list primitives and ID
generation. -/

theorem alookup_aset_self {κ α : Type} [DecidableEq κ]
    (l : List (κ × α)) (k : κ) (v : α) : alookup (aset l k v) k = some v := by
  induction l with
  | nil => simp [aset, alookup]
  | cons hd tl ih =>
      obtain ⟨k1, v1⟩ := hd
      by_cases h : k1 = k
      · simp [aset, alookup, h]
      · simp [aset, alookup, h, ih]

theorem alookup_aset_ne {κ α : Type} [DecidableEq κ]
    (l : List (κ × α)) (k k' : κ) (v : α) (h : k ≠ k') :
    alookup (aset l k v) k' = alookup l k' := by
  induction l with
  | nil => simp [aset, alookup, h]
  | cons hd tl ih =>
      obtain ⟨k1, v1⟩ := hd
      by_cases h1 : k1 = k
      · subst h1
        simp [aset, alookup, h]
      · simp [aset, alookup, h1, ih]

theorem mem_aset {κ α : Type} [DecidableEq κ]
    (l : List (κ × α)) (k : κ) (v : α) (x : κ × α) (hx : x ∈ aset l k v) :
    x ∈ l ∨ x = (k, v) := by
  induction l with
  | nil => simpa [aset] using hx
  | cons hd tl ih =>
      obtain ⟨k1, v1⟩ := hd
      by_cases h1 : k1 = k
      · subst h1
        simp [aset] at hx
        rcases hx with h2 | h2
        · exact Or.inr (by simp [h2])
        · exact Or.inl (by simp [h2])
      · simp [aset, h1] at hx
        rcases hx with h2 | h2
        · exact Or.inl (by simp [h2])
        · rcases ih h2 with h3 | h3
          · exact Or.inl (by simp [h3])
          · exact Or.inr h3

theorem mem_adel {κ α : Type} [DecidableEq κ]
    (l : List (κ × α)) (k : κ) (x : κ × α) (hx : x ∈ adel l k) : x ∈ l := by
  induction l with
  | nil => simp [adel] at hx
  | cons hd tl ih =>
      obtain ⟨k1, v1⟩ := hd
      by_cases h1 : k1 = k
      · simp [adel, h1] at hx
        simp [hx]
      · simp [adel, h1] at hx
        rcases hx with h2 | h2
        · simp [h2]
        · simp [ih h2]

theorem aset_keys_nodup {κ α : Type} [DecidableEq κ]
    (l : List (κ × α)) (k : κ) (v : α) (h : (l.map Prod.fst).Nodup) :
    ((aset l k v).map Prod.fst).Nodup := by
  induction l with
  | nil => simp [aset]
  | cons hd tl ih =>
      obtain ⟨k1, v1⟩ := hd
      simp only [List.map_cons, List.nodup_cons] at h
      by_cases h1 : k1 = k
      · subst h1
        simpa [aset] using h
      · simp only [aset, if_neg h1, List.map_cons]
        refine (List.nodup_cons).2 ⟨?_, ih h.2⟩
        intro hmem
        rcases List.mem_map.1 hmem with ⟨⟨k2, v2⟩, hk2, hfst⟩
        rcases mem_aset tl k v (k2, v2) hk2 with h3 | h3
        · exact h.1 (by subst hfst; exact List.mem_map.2 ⟨(k2, v2), h3, rfl⟩)
        · apply h1
          have h4 : k2 = k := by simpa using congrArg Prod.fst h3
          have h5 : k2 = k1 := by simpa using hfst
          exact h5.symm.trans h4

theorem adel_keys_nodup {κ α : Type} [DecidableEq κ]
    (l : List (κ × α)) (k : κ) (h : (l.map Prod.fst).Nodup) :
    ((adel l k).map Prod.fst).Nodup := by
  induction l with
  | nil => simp [adel]
  | cons hd tl ih =>
      obtain ⟨k1, v1⟩ := hd
      simp only [List.map_cons, List.nodup_cons] at h
      by_cases h1 : k1 = k
      · simpa [adel, h1] using h.2
      · simp only [adel, if_neg h1, List.map_cons]
        refine (List.nodup_cons).2 ⟨?_, ih h.2⟩
        intro hmem
        rcases List.mem_map.1 hmem with ⟨⟨k2, v2⟩, hk2, hfst⟩
        subst hfst
        exact h.1 (List.mem_map.2 ⟨(k2, v2), mem_adel tl k (k2, v2) hk2, rfl⟩)

/-! ID generation.  The source draws `(Math.random() * 1e20).toFixed()` and
loops while the drawn ID is already in `_localIDsToObjects`; the model draws
from a counter, which yields a fresh decimal token by construction.  The
lemmas show a generated ID is a nonempty (hence truthy) string. -/

theorem toDigitsCore_length_le (b : Nat) (fuel n : Nat) (ds : List Char) :
    ds.length ≤ (Nat.toDigitsCore b fuel n ds).length := by
  induction fuel generalizing n ds with
  | zero => simp [Nat.toDigitsCore]
  | succ f ih =>
      simp only [Nat.toDigitsCore]
      by_cases h : n / b = 0
      · simp [h]
      · simp only [if_neg h]
        exact le_trans (by simp) (ih (n / b) (Nat.digitChar (n % b) :: ds))

theorem natRepr_ne_empty (n : Nat) : Nat.repr n ≠ "" := by
  intro hc
  have h3 : Nat.toDigits 10 n = [] := by
    have h2 := congrArg String.toList hc
    simpa [Nat.repr] using h2
  have h4 : (1 : Nat) ≤ (Nat.toDigits 10 n).length := by
    unfold Nat.toDigits
    simp only [Nat.toDigitsCore]
    by_cases h : n / 10 = 0
    · simp [h]
    · simp only [if_neg h]
      exact le_trans (by simp) (toDigitsCore_length_le 10 n (n / 10) _)
  rw [h3] at h4
  simp at h4

theorem alookup_mem {κ α : Type} [DecidableEq κ] (l : List (κ × α)) (k : κ) (v : α)
    (h : alookup l k = some v) : (k, v) ∈ l := by
  induction l with
  | nil => simp [alookup] at h
  | cons hd tl ih =>
      obtain ⟨k1, v1⟩ := hd
      by_cases h1 : k1 = k
      · subst h1
        simp [alookup] at h
        simp [h]
      · simp [alookup, h1] at h
        simp [ih h]

/-! The verified claims. -/

/-- C1: identity round-trip.  For a local object `o` exposed to the peer —
`getOrCreateIDForLocalObject` returned ID `i` and bound `i` to `o` in
`_localIDsToObjects` — applying `mapIncomingObjects` to the echoed wire
reference `{idRemote: i}` yields the very same object `o` (the same
identity, not a copy), with the state untouched.  The well-formedness
hypothesis records that the weak map only ever holds generated IDs, which
are nonempty (hence truthy) strings. -/
theorem c1_identity_round_trip (st : St) (o : JVal) (a : Addr)
    (ha : addrOf o = some a)
    (hwf : ∀ e ∈ st.localObjectsToIDs, e.2 ≠ "")
    (i : ObjId) (st1 : St)
    (hreg : getOrCreateIDForLocalObject st o = (i, st1)) :
    mapIncomingObjects st1 (.wobj none (some i) none none none) = .ok (o, st1) := by
  have hkey : alookup st1.localIDsToObjects i = some (.strong o) ∧ i ≠ "" := by
    cases hlk : alookup st.localObjectsToIDs a with
    | some id =>
        simp only [getOrCreateIDForLocalObject, ha, hlk] at hreg
        have hi : id = i := congrArg Prod.fst hreg
        subst hi
        have hst : st1 = { st with localIDsToObjects := aset st.localIDsToObjects id (.strong o) } :=
          (congrArg Prod.snd hreg).symm
        subst hst
        exact ⟨alookup_aset_self _ _ _, hwf (a, id) (alookup_mem _ _ _ hlk)⟩
    | none =>
        simp only [getOrCreateIDForLocalObject, ha, hlk, generateNewObjID] at hreg
        have hi : toString st.nextIdNum = i := congrArg Prod.fst hreg
        have hst := (congrArg Prod.snd hreg).symm
        subst hst
        subst hi
        exact ⟨alookup_aset_self _ _ _, natRepr_ne_empty st.nextIdNum⟩
  simp [mapIncomingObjects, truthyS, getLocalObject, hkey.1, hkey.2]

/-- C1 witness: a concrete object exposed from the empty state and echoed
back resolves to itself. -/
theorem c1_identity_round_trip_witness :
    mapIncomingObjects
      { localObjectsToIDs := [(0, "0")],
        localIDsToObjects := [("0", LocalEntry.strong (.vobj 0 (.node "Car" false [] .plainRoot) []))],
        localClasses := [], remoteClasses := [], remoteObjects := [],
        nextAddr := 0, nextIdNum := 1 }
      (.wobj none (some "0") none none none)
    = .ok (.vobj 0 (.node "Car" false [] .plainRoot) [],
        { localObjectsToIDs := [(0, "0")],
          localIDsToObjects := [("0", LocalEntry.strong (.vobj 0 (.node "Car" false [] .plainRoot) []))],
          localClasses := [], remoteClasses := [], remoteObjects := [],
          nextAddr := 0, nextIdNum := 1 }) :=
  c1_identity_round_trip
    { localObjectsToIDs := [], localIDsToObjects := [], localClasses := [],
      remoteClasses := [], remoteObjects := [], nextAddr := 0, nextIdNum := 0 }
    (.vobj 0 (.node "Car" false [] .plainRoot) []) 0 rfl
    (by intro e he; simp at he) "0" _ (by rfl)

/-- C8: release demotes, never deletes.  For an ID `i` held strongly in the
local registry, the inbound `del` handler `deleteLocalObject` replaces the
strong entry by a weak reference to the same object; a second `del` is a
no-op; the entry is never removed; and re-exporting the still-alive value
under `getOrCreateIDForLocalObject` yields the same ID `i` again and
`getLocalObject i` resolves to the original object. -/
theorem c8_release_demotes_never_deletes (st : St) (i : ObjId) (v : JVal) (a : Addr)
    (hv : addrOf v = some a)
    (hstrong : alookup st.localIDsToObjects i = some (.strong v))
    (hback : alookup st.localObjectsToIDs a = some i) :
    ∃ st1,
      deleteLocalObject st i = .ok st1 ∧
      st1 = { st with localIDsToObjects := aset st.localIDsToObjects i (.weak v true) } ∧
      alookup st1.localIDsToObjects i = some (.weak v true) ∧
      deleteLocalObject st1 i = .ok st1 ∧
      (getOrCreateIDForLocalObject st1 v).1 = i ∧
      getLocalObject (getOrCreateIDForLocalObject st1 v).2 i
        = .ok (v, (getOrCreateIDForLocalObject st1 v).2) := by
  refine ⟨{ st with localIDsToObjects := aset st.localIDsToObjects i (.weak v true) },
    ?_, rfl, ?_, ?_, ?_, ?_⟩
  · simp [deleteLocalObject, hstrong]
  · exact alookup_aset_self _ _ _
  · simp [deleteLocalObject, alookup_aset_self]
  · simp [getOrCreateIDForLocalObject, hv, hback]
  · simp [getOrCreateIDForLocalObject, hv, hback, getLocalObject, alookup_aset_self]

/-- C8 witness: demotion, idempotence and re-export at a concrete state. -/
theorem c8_release_demotes_never_deletes_witness :
    ∃ st1,
      deleteLocalObject
        { localObjectsToIDs := [(4, "9")],
          localIDsToObjects := [("9", LocalEntry.strong (.vfunc 4))],
          localClasses := [], remoteClasses := [], remoteObjects := [],
          nextAddr := 5, nextIdNum := 1 } "9" = .ok st1 ∧
      st1 = { localObjectsToIDs := [(4, "9")],
              localIDsToObjects := aset [("9", LocalEntry.strong (.vfunc 4))] "9" (.weak (.vfunc 4) true),
              localClasses := [], remoteClasses := [], remoteObjects := [],
              nextAddr := 5, nextIdNum := 1 } ∧
      alookup st1.localIDsToObjects "9" = some (.weak (.vfunc 4) true) ∧
      deleteLocalObject st1 "9" = .ok st1 ∧
      (getOrCreateIDForLocalObject st1 (.vfunc 4)).1 = "9" ∧
      getLocalObject (getOrCreateIDForLocalObject st1 (.vfunc 4)).2 "9"
        = .ok (.vfunc 4, (getOrCreateIDForLocalObject st1 (.vfunc 4)).2) :=
  c8_release_demotes_never_deletes
    { localObjectsToIDs := [(4, "9")],
      localIDsToObjects := [("9", LocalEntry.strong (.vfunc 4))],
      localClasses := [], remoteClasses := [], remoteObjects := [],
      nextAddr := 5, nextIdNum := 1 } "9" (.vfunc 4) 4 rfl rfl rfl

theorem applyRemoteOp_keys_nodup (st : St) (op : RemoteOp)
    (h : (st.remoteObjects.map Prod.fst).Nodup) :
    ((applyRemoteOp st op).remoteObjects.map Prod.fst).Nodup := by
  cases op with
  | add i v =>
      simp only [applyRemoteOp, addRemoteObject]
      cases getRemoteObject st i with
      | some s => simpa using h
      | none => simpa using aset_keys_nodup _ i (v, true) h
  | finalize i =>
      simpa [applyRemoteOp] using adel_keys_nodup _ i h
  | gcClear i =>
      simp only [applyRemoteOp]
      cases hlk : alookup st.remoteObjects i with
      | some p => simpa using aset_keys_nodup _ i (p.1, false) h
      | none => simpa using h

/-- C6: single-stub invariant.  Registering a remote object under an ID
that already has a live stub fails with the DuplicateRemote assertion and
leaves the remote registry unchanged; and any sequence of registrations,
finalizations and GC clears preserves key-uniqueness of the remote
registry, so each ID maps to at most one (live) stub. -/
theorem c6_single_stub :
    (∀ (st : St) (i : ObjId) (v s : JVal), getRemoteObject st i = some s →
        addRemoteObject st i v = .error (.duplicateRemote i) ∧
        applyRemoteOp st (.add i v) = st) ∧
    (∀ (st : St) (ops : List RemoteOp), (st.remoteObjects.map Prod.fst).Nodup →
        ((runRemoteOps st ops).remoteObjects.map Prod.fst).Nodup) := by
  constructor
  · intro st i v s h
    constructor
    · simp [addRemoteObject, h]
    · simp [applyRemoteOp, addRemoteObject, h]
  · intro st ops
    induction ops generalizing st with
    | nil => intro h; simpa [runRemoteOps] using h
    | cons op rest ih =>
        intro h
        have h1 : runRemoteOps st (op :: rest) = runRemoteOps (applyRemoteOp st op) rest := by
          simp [runRemoteOps]
        rw [h1]
        exact ih _ (applyRemoteOp_keys_nodup st op h)

/-- C6 witness: the duplicate registration fails and a concrete operation
sequence preserves key-uniqueness. -/
theorem c6_single_stub_witness :
    addRemoteObject
      { localObjectsToIDs := [], localIDsToObjects := [], localClasses := [],
        remoteClasses := [], remoteObjects := [("1", (.vfunc 0, true))],
        nextAddr := 1, nextIdNum := 0 } "1" (.vfunc 9)
      = .error (.duplicateRemote "1") ∧
    ((runRemoteOps
        { localObjectsToIDs := [], localIDsToObjects := [], localClasses := [],
          remoteClasses := [], remoteObjects := [("1", (.vfunc 0, true))],
          nextAddr := 1, nextIdNum := 0 }
        [.add "2" (.vfunc 9), .add "1" (.vfunc 9), .finalize "1", .gcClear "2"]).remoteObjects.map
        Prod.fst).Nodup :=
  ⟨(c6_single_stub.1
      { localObjectsToIDs := [], localIDsToObjects := [], localClasses := [],
        remoteClasses := [], remoteObjects := [("1", (.vfunc 0, true))],
        nextAddr := 1, nextIdNum := 0 } "1" (.vfunc 9) (.vfunc 0) (by rfl)).1,
   c6_single_stub.2
      { localObjectsToIDs := [], localIDsToObjects := [], localClasses := [],
        remoteClasses := [], remoteObjects := [("1", (.vfunc 0, true))],
        nextAddr := 1, nextIdNum := 0 }
      [.add "2" (.vfunc 9), .add "1" (.vfunc 9), .finalize "1", .gcClear "2"] (by simp)⟩

/-- C2 counterexample: a wire object carrying both `idLocal` and
`properties` for an ID with a live registered stub is NOT treated as a full
object description — the incoming marshaller returns the existing stub
unchanged (same identity 0, registry and allocation counter untouched,
properties ignored), refuting the claim's "regardless of whether a stub for
that idLocal already exists". -/
theorem c2_tie_break_counterexample :
    mapIncomingObjects
      { localObjectsToIDs := [], localIDsToObjects := [], localClasses := [],
        remoteClasses := ["C"], remoteObjects := [("1", (.vstub 0 "1" "C" [], true))],
        nextAddr := 5, nextIdNum := 0 }
      (.wobj (some "1") none none (some "C") (some [("x", .wnum 1)]))
    = .ok (.vstub 0 "1" "C" [],
        { localObjectsToIDs := [], localIDsToObjects := [], localClasses := [],
          remoteClasses := ["C"], remoteObjects := [("1", (.vstub 0 "1" "C" [], true))],
          nextAddr := 5, nextIdNum := 0 }) := by
  simp [mapIncomingObjects, getRemoteObject, alookup, truthyS]

/-- C2 (amended): a wire object carrying both `idLocal` and `properties` is
treated as a full object description — a fresh stub is materialized,
registered under the ID, and assigned the recursively unmarshalled
properties — provided no live stub is registered for that `idLocal`, the
`className` is not "Function", and it names a registered remote class; when
a live stub exists the marshaller instead returns that stub and ignores the
properties (see the counterexample). -/
theorem c2_tie_break_amended (st : St) (i : ObjId) (hi : i ≠ "") (c : String)
    (hcf : c ≠ "Function") (hreg : st.remoteClasses.contains c = true)
    (hnostub : getRemoteObject st i = none)
    (ps : List (String × Wire)) (fs : List (String × JVal)) (st2 : St)
    (hprops :
      mapIncomingFields
        { st with
          nextAddr := st.nextAddr + 1
          remoteObjects := aset st.remoteObjects i (.vstub st.nextAddr i c [], true) } ps
        = .ok (fs, st2)) :
    mapIncomingObjects st (.wobj (some i) none none (some c) (some ps))
      = .ok (.vstub st.nextAddr i c fs, st2) ∧
    getRemoteObject
      { st with
        nextAddr := st.nextAddr + 1
        remoteObjects := aset st.remoteObjects i (.vstub st.nextAddr i c [], true) } i
      = some (.vstub st.nextAddr i c []) := by
  have hns1 : getRemoteObject { st with nextAddr := st.nextAddr + 1 } i = none := hnostub
  have hreg2 : c ∈ st.remoteClasses := by simpa using hreg
  constructor
  · simp [mapIncomingObjects, truthyS, hi, hnostub, hcf, makeStub, hreg2,
      addRemoteObject, hns1, hprops, bind, Except.bind]
  · simp [getRemoteObject, alookup_aset_self]

/-- C2 witness: the amended behaviour at a concrete fresh ID. -/
theorem c2_tie_break_amended_witness :
    mapIncomingObjects
      { localObjectsToIDs := [], localIDsToObjects := [], localClasses := [],
        remoteClasses := ["C"], remoteObjects := [], nextAddr := 5, nextIdNum := 0 }
      (.wobj (some "1") none none (some "C") (some [("x", .wnum 1)]))
    = .ok (.vstub 5 "1" "C" [("x", .vnum 1)],
        { localObjectsToIDs := [], localIDsToObjects := [], localClasses := [],
          remoteClasses := ["C"], remoteObjects := [("1", (.vstub 5 "1" "C" [], true))],
          nextAddr := 6, nextIdNum := 0 }) ∧
    getRemoteObject
      { localObjectsToIDs := [], localIDsToObjects := [], localClasses := [],
        remoteClasses := ["C"], remoteObjects := [("1", (.vstub 5 "1" "C" [], true))],
        nextAddr := 6, nextIdNum := 0 } "1"
      = some (.vstub 5 "1" "C" []) := by
  have h := c2_tie_break_amended
    { localObjectsToIDs := [], localIDsToObjects := [], localClasses := [],
      remoteClasses := ["C"], remoteObjects := [], nextAddr := 5, nextIdNum := 0 }
    "1" (by simp) "C" (by simp) (by simp) rfl [("x", .wnum 1)] [("x", .vnum 1)]
    { localObjectsToIDs := [], localIDsToObjects := [], localClasses := [],
      remoteClasses := ["C"], remoteObjects := [("1", (.vstub 5 "1" "C" [], true))],
      nextAddr := 6, nextIdNum := 0 }
    (by simp [mapIncomingFields, mapIncomingObjects, aset, bind, Except.bind])
  exact ⟨h.1, by simpa [aset] using h.2⟩

/-- C5 counterexample: an incoming `{idLocal, className}` without
`properties`, naming an ID with no live stub and a registered class name
that is not "Function", does NOT fail with an unknown-remote error as the
claim requires — the marshaller materializes and registers a fresh empty
stub and returns it. -/
theorem c5_reference_only_counterexample :
    mapIncomingObjects
      { localObjectsToIDs := [], localIDsToObjects := [], localClasses := [],
        remoteClasses := ["Car"], remoteObjects := [], nextAddr := 3, nextIdNum := 0 }
      (.wobj (some "7") none none (some "Car") none)
    = .ok (.vstub 3 "7" "Car" [],
        { localObjectsToIDs := [], localIDsToObjects := [], localClasses := [],
          remoteClasses := ["Car"], remoteObjects := [("7", (.vstub 3 "7" "Car" [], true))],
          nextAddr := 4, nextIdNum := 0 }) := by
  simp [mapIncomingObjects, truthyS, getRemoteObject, alookup, makeStub, addRemoteObject,
    aset, mapIncomingFields, bind, Except.bind]

/-- C5 (amended): for an incoming `{idLocal, className?}` without
`properties`: (1) a live registered stub for the ID is returned as-is;
(2) with no stub and `className == "Function"` a fresh callable stub is
built and registered; (3) with no stub and a `className` that is not
"Function" but names a registered remote class, a fresh empty stub is
materialized and registered (the shape is accepted, contrary to the
claim); (4) with no stub and a `className` naming no registered class the
unknown-remote-class assertion fails; (5) likewise when `className` is
absent. -/
theorem c5_reference_only_amended :
    (∀ (st : St) (i : ObjId) (cName : Option String) (s : JVal), i ≠ "" →
        getRemoteObject st i = some s →
        mapIncomingObjects st (.wobj (some i) none none cName none) = .ok (s, st)) ∧
    (∀ (st : St) (i : ObjId), i ≠ "" → getRemoteObject st i = none →
        mapIncomingObjects st (.wobj (some i) none none (some "Function") none)
          = .ok (.vfunc st.nextAddr,
              { st with
                nextAddr := st.nextAddr + 1
                remoteObjects := aset st.remoteObjects i (.vfunc st.nextAddr, true) })) ∧
    (∀ (st : St) (i : ObjId) (c : String), i ≠ "" → getRemoteObject st i = none →
        c ≠ "Function" → st.remoteClasses.contains c = true →
        mapIncomingObjects st (.wobj (some i) none none (some c) none)
          = .ok (.vstub st.nextAddr i c [],
              { st with
                nextAddr := st.nextAddr + 1
                remoteObjects := aset st.remoteObjects i (.vstub st.nextAddr i c [], true) })) ∧
    (∀ (st : St) (i : ObjId) (c : String), i ≠ "" → getRemoteObject st i = none →
        c ≠ "Function" → st.remoteClasses.contains c = false →
        mapIncomingObjects st (.wobj (some i) none none (some c) none)
          = .error (.unknownRemoteClass (some c))) ∧
    (∀ (st : St) (i : ObjId), i ≠ "" → getRemoteObject st i = none →
        mapIncomingObjects st (.wobj (some i) none none none none)
          = .error (.unknownRemoteClass none)) := by
  refine ⟨?_, ?_, ?_, ?_, ?_⟩
  · intro st i cName s hi hs
    simp [mapIncomingObjects, truthyS, hi, hs]
  · intro st i hi hns
    have hns1 : getRemoteObject { st with nextAddr := st.nextAddr + 1 } i = none := hns
    simp [mapIncomingObjects, truthyS, hi, hns, addRemoteObject, hns1]
  · intro st i c hi hns hcf hreg
    have hns1 : getRemoteObject { st with nextAddr := st.nextAddr + 1 } i = none := hns
    have hreg2 : c ∈ st.remoteClasses := by simpa using hreg
    simp [mapIncomingObjects, truthyS, hi, hns, hcf, makeStub, hreg2, addRemoteObject,
      hns1, mapIncomingFields, bind, Except.bind]
  · intro st i c hi hns hcf hreg
    have hreg2 : c ∉ st.remoteClasses := by simpa using hreg
    simp [mapIncomingObjects, truthyS, hi, hns, hcf, makeStub, hreg2]
  · intro st i hi hns
    simp [mapIncomingObjects, truthyS, hi, hns, makeStub]

/-- C5 witness: the stub-reuse case and the unknown-class failure case at
concrete states. -/
theorem c5_reference_only_amended_witness :
    mapIncomingObjects
      { localObjectsToIDs := [], localIDsToObjects := [], localClasses := [],
        remoteClasses := [], remoteObjects := [("8", (.vfunc 2, true))],
        nextAddr := 3, nextIdNum := 0 }
      (.wobj (some "8") none none none none)
    = .ok (.vfunc 2,
        { localObjectsToIDs := [], localIDsToObjects := [], localClasses := [],
          remoteClasses := [], remoteObjects := [("8", (.vfunc 2, true))],
          nextAddr := 3, nextIdNum := 0 }) ∧
    mapIncomingObjects
      { localObjectsToIDs := [], localIDsToObjects := [], localClasses := [],
        remoteClasses := [], remoteObjects := [], nextAddr := 3, nextIdNum := 0 }
      (.wobj (some "8") none none (some "Car") none)
    = .error (.unknownRemoteClass (some "Car")) :=
  ⟨c5_reference_only_amended.1
      { localObjectsToIDs := [], localIDsToObjects := [], localClasses := [],
        remoteClasses := [], remoteObjects := [("8", (.vfunc 2, true))],
        nextAddr := 3, nextIdNum := 0 } "8" none (.vfunc 2) (by simp) rfl,
   c5_reference_only_amended.2.2.2.1
      { localObjectsToIDs := [], localIDsToObjects := [], localClasses := [],
        remoteClasses := [], remoteObjects := [], nextAddr := 3, nextIdNum := 0 }
      "8" "Car" (by simp) rfl (by simp) rfl⟩

theorem exceptBind_ok {ε α β : Type} {x : Except ε α} {f : α → Except ε β} {b : β}
    (h : (do let a ← x; f a) = .ok b) : ∃ a, x = .ok a ∧ f a = .ok b := by
  cases x with
  | ok a => exact ⟨a, rfl, by simpa [bind, Except.bind] using h⟩
  | error e => simp [bind, Except.bind] at h

/-- C7: bare reference for known objects (the part_001 `mapOutgoingObjects`
the claim cites).  A non-plain, non-stub object that already has a local ID
is marshalled to the bare reference `{idLocal: id}` — `wrefLocal` carries
nothing but the ID: no className, no properties — with no class messages
and no state change; an object with no existing ID is the only one to
receive the full `{id, className, properties}` description, under the
freshly generated ID. -/
theorem c7_bare_reference_for_known (st : V1.StV1) (a : Addr) (p : Proto)
    (props : List (String × Bool × JVal))
    (hplain : V1.protoCtorName p ≠ "Object") :
    (∀ id, alookup st.localObjectsToIDs a = some id →
        V1.mapOutgoingObjects st (.vobj a p props) = .ok (.wrefLocal id, [], st)) ∧
    (alookup st.localObjectsToIDs a = none →
        ∀ w tr st1, V1.mapOutgoingObjects st (.vobj a p props) = .ok (w, tr, st1) →
          ∃ properties, w = .wdescr (toString st.nextIdNum) (V1.protoCtorName p) properties) := by
  constructor
  · intro id hlk
    simp [V1.mapOutgoingObjects, hplain, hlk]
  · intro hlk w tr st1 hrun
    by_cases hc : V1.protoCtorName p = ""
    · simp [V1.mapOutgoingObjects, hplain, hlk, V1.getNewIDForLocalObject, addrOf,
        V1.createObjectDescription, hc] at hrun
    · simp only [V1.mapOutgoingObjects, hplain, hlk, V1.getNewIDForLocalObject, addrOf,
        V1.createObjectDescription, hc, if_neg, if_false, ite_false] at hrun
      rcases exceptBind_ok hrun with ⟨r, _, hret⟩
      refine ⟨if r.1.isEmpty then none else some r.1, ?_⟩
      have h2 := Except.ok.inj hret
      have h3 := congrArg Prod.fst h2
      simpa using h3.symm

/-- C7 witness: both branches at concrete states — a known object yields
the bare reference; a fresh object yields the full description. -/
theorem c7_bare_reference_for_known_witness :
    V1.mapOutgoingObjects
      { localIDsToObjects := [("5", .vobj 2 (.node "Car" false [] .plainRoot) [])],
        localObjectsToIDs := [(2, "5")], localClasses := ["Car"], nextIdNum := 1 }
      (.vobj 2 (.node "Car" false [] .plainRoot) [])
    = .ok (.wrefLocal "5", [],
        { localIDsToObjects := [("5", .vobj 2 (.node "Car" false [] .plainRoot) [])],
          localObjectsToIDs := [(2, "5")], localClasses := ["Car"], nextIdNum := 1 }) ∧
    (∀ w tr st1,
      V1.mapOutgoingObjects
        { localIDsToObjects := [], localObjectsToIDs := [],
          localClasses := ["Car"], nextIdNum := 1 }
        (.vobj 2 (.node "Car" false [] .plainRoot) []) = .ok (w, tr, st1) →
      ∃ properties, w = .wdescr "1" "Car" properties) :=
  ⟨(c7_bare_reference_for_known
      { localIDsToObjects := [("5", .vobj 2 (.node "Car" false [] .plainRoot) [])],
        localObjectsToIDs := [(2, "5")], localClasses := ["Car"], nextIdNum := 1 }
      2 (.node "Car" false [] .plainRoot) [] (by simp [V1.protoCtorName])).1 "5" rfl,
   (c7_bare_reference_for_known
      { localIDsToObjects := [], localObjectsToIDs := [],
        localClasses := ["Car"], nextIdNum := 1 }
      2 (.node "Car" false [] .plainRoot) [] (by simp [V1.protoCtorName])).2 rfl⟩

theorem descrLists_filter (ms : List Member) :
    (∀ n ∈ (descrLists ms).1, ¬ startsWithUnderscore n = true ∧ n ≠ "constructor") ∧
    (∀ g ∈ (descrLists ms).2.1, ¬ startsWithUnderscore g.1 = true ∧ g.1 ≠ "constructor") ∧
    (∀ n ∈ (descrLists ms).2.2, ¬ startsWithUnderscore n = true ∧ n ≠ "constructor") := by
  induction ms with
  | nil => simp [descrLists]
  | cons m rest ih =>
      by_cases h : (startsWithUnderscore m.name || m.name == "constructor") = true
      · simpa [descrLists, h] using ih
      · have hname : ¬ startsWithUnderscore m.name = true ∧ m.name ≠ "constructor" := by
          simp at h
          exact ⟨by simp [h.1], h.2⟩
        cases hk : m.kind with
        | method =>
            refine ⟨?_, ?_, ?_⟩
            · intro n hn
              simp [descrLists, h, hk] at hn
              rcases hn with hn | hn
              · subst hn; exact hname
              · exact ih.1 n hn
            · intro g hg
              simp [descrLists, h, hk] at hg
              exact ih.2.1 g hg
            · intro n hn
              simp [descrLists, h, hk] at hn
              exact ih.2.2 n hn
        | getterM hs =>
            refine ⟨?_, ?_, ?_⟩
            · intro n hn
              simp [descrLists, h, hk] at hn
              exact ih.1 n hn
            · intro g hg
              simp [descrLists, h, hk] at hg
              rcases hg with hg | hg
              · rw [hg]; exact hname
              · exact ih.2.1 g hg
            · intro n hn
              simp [descrLists, h, hk] at hn
              exact ih.2.2 n hn
        | dataMember =>
            refine ⟨?_, ?_, ?_⟩
            · intro n hn
              simp [descrLists, h, hk] at hn
              exact ih.1 n hn
            · intro g hg
              simp [descrLists, h, hk] at hg
              exact ih.2.1 g hg
            · intro n hn
              simp [descrLists, h, hk] at hn
              rcases hn with hn | hn
              · subst hn; exact hname
              · exact ih.2.2 n hn

theorem sendClass_filtered (p : Proto) : ∀ (st : St) (c : String),
    ∀ d ∈ (sendClassDescription st c p).1,
      (∀ n ∈ d.functions, ¬ startsWithUnderscore n = true ∧ n ≠ "constructor") ∧
      (∀ g ∈ d.getters, ¬ startsWithUnderscore g.1 = true ∧ g.1 ≠ "constructor") ∧
      (∀ n ∈ d.propNames, ¬ startsWithUnderscore n = true ∧ n ≠ "constructor") := by
  induction p with
  | plainRoot =>
      intro st c d hd
      by_cases h1 : c ∈ st.localClasses
      · simp [sendClassDescription, h1] at hd
      · simp [sendClassDescription, h1] at hd
        subst hd
        simp
  | node cn it ms parent ih =>
      intro st c d hd
      by_cases h1 : c ∈ st.localClasses
      · simp [sendClassDescription, h1] at hd
      · by_cases h2 : protoName parent = "Object"
        · simp [sendClassDescription, h1, h2] at hd
          subst hd
          exact descrLists_filter ms
        · simp [sendClassDescription, h1, h2] at hd
          rcases hd with hd | hd
          · exact ih _ _ d hd
          · subst hd
            exact descrLists_filter ms

theorem mapDescrFields_filter (props : List (String × Bool × JVal)) :
    ∀ (st : St) (fs : List (String × Wire)) (tr : List ClassDescr) (st1 : St),
      mapDescrFields st props = .ok (fs, tr, st1) →
      ∀ e ∈ fs, ¬ startsWithUnderscore e.1 = true ∧
        ∃ v, (e.1, false, v) ∈ props ∧ isFuncVal v = false := by
  induction props with
  | nil =>
      intro st fs tr st1 h e he
      simp [mapDescrFields] at h
      rw [h.1] at he
      simp at he
  | cons hd rest ih =>
      obtain ⟨n, isAcc, v⟩ := hd
      intro st fs tr st1 h e he
      by_cases hskip : (startsWithUnderscore n || isAcc || isFuncVal v) = true
      · rw [mapDescrFields, if_pos hskip] at h
        rcases ih st fs tr st1 h e he with ⟨h1, v2, h2, h3⟩
        exact ⟨h1, v2, List.mem_cons_of_mem _ h2, h3⟩
      · rw [mapDescrFields, if_neg hskip] at h
        rcases exceptBind_ok h with ⟨r1, hr1, h⟩
        rcases exceptBind_ok h with ⟨r2, hr2, h⟩
        have hfs : (n, r1.1) :: r2.1 = fs := congrArg Prod.fst (Except.ok.inj h)
        rw [← hfs] at he
        simp only [Bool.or_eq_true, not_or] at hskip
        rcases List.mem_cons.1 he with he | he
        · subst he
          refine ⟨hskip.1.1, v, ?_, ?_⟩
          · have hacc : isAcc = false := by
              cases isAcc
              · rfl
              · exact absurd rfl hskip.1.2
            rw [← hacc]
            exact List.mem_cons_self _ _
          · cases hfv : isFuncVal v
            · rfl
            · exact absurd hfv hskip.2
        · rcases ih r1.2.2 r2.1 r2.2.1 r2.2.2 (by
              rcases r2 with ⟨x, y, z⟩
              exact hr2) e he with ⟨h1, v2, h2, h3⟩
          exact ⟨h1, v2, List.mem_cons_of_mem _ h2, h3⟩

/-- C9: property filter.  Every object description produced by
`createObjectDescription` carries a properties map whose entries all come
from an own data (non-accessor) property of the object whose value is not
a function and whose name does not start with "_"; and every class
description emitted by `sendClassDescription` has functions, getters and
properties lists free of names starting with "_" and of "constructor". -/
theorem c9_property_filter :
    (∀ (st : St) (p : Proto) (props : List (String × Bool × JVal)) (id : ObjId)
        (w : Wire) (tr : List ClassDescr) (st1 : St),
        createObjectDescription st p props id = .ok (w, tr, st1) →
        ∃ fields, w = .wobj (some id) none none (some (protoName p))
            (if fields.isEmpty then none else some fields) ∧
          ∀ e ∈ fields, ¬ startsWithUnderscore e.1 = true ∧
            ∃ v, (e.1, false, v) ∈ props ∧ isFuncVal v = false) ∧
    (∀ (st : St) (c : String) (p : Proto), ∀ d ∈ (sendClassDescription st c p).1,
        (∀ n ∈ d.functions, ¬ startsWithUnderscore n = true ∧ n ≠ "constructor") ∧
        (∀ g ∈ d.getters, ¬ startsWithUnderscore g.1 = true ∧ g.1 ≠ "constructor") ∧
        (∀ n ∈ d.propNames, ¬ startsWithUnderscore n = true ∧ n ≠ "constructor")) := by
  constructor
  · intro st p props id w tr st1 h
    rw [createObjectDescription] at h
    rcases exceptBind_ok h with ⟨r, hr, h⟩
    refine ⟨r.1, ?_, ?_⟩
    · exact (congrArg Prod.fst (Except.ok.inj h)).symm
    · intro e he
      exact mapDescrFields_filter props _ r.1 r.2.1 r.2.2
        (by rcases r with ⟨x, y, z⟩; exact hr) e he
  · intro st c p
    exact sendClass_filtered p st c

/-- C9 witness: a concrete object whose only own data property has an
underscore-prefixed name transmits no properties at all; a concrete class
with an underscore member, a constructor entry, a method and a getter
transmits filtered member lists. -/
theorem c9_property_filter_witness :
    (∃ fields,
        Wire.wobj (some "3") none none (some "Car") none
          = .wobj (some "3") none none
              (some (protoName (.node "Car" false [] .plainRoot)))
              (if fields.isEmpty then none else some fields) ∧
        ∀ e ∈ fields, ¬ startsWithUnderscore e.1 = true ∧
          ∃ v, (e.1, false, v) ∈ [("_owner", false, JVal.vstr "Fred")] ∧
            isFuncVal v = false) ∧
    (∀ d ∈ (sendClassDescription
        { localObjectsToIDs := [], localIDsToObjects := [], localClasses := [],
          remoteClasses := [], remoteObjects := [], nextAddr := 0, nextIdNum := 0 }
        "Car"
        (.node "Car" false
          [{ name := "_secret", kind := .method }, { name := "constructor", kind := .method },
           { name := "drive", kind := .method }, { name := "owner", kind := .getterM true }]
          .plainRoot)).1,
      (∀ n ∈ d.functions, ¬ startsWithUnderscore n = true ∧ n ≠ "constructor") ∧
      (∀ g ∈ d.getters, ¬ startsWithUnderscore g.1 = true ∧ g.1 ≠ "constructor") ∧
      (∀ n ∈ d.propNames, ¬ startsWithUnderscore n = true ∧ n ≠ "constructor")) := by
  constructor
  · refine c9_property_filter.1
      { localObjectsToIDs := [], localIDsToObjects := [], localClasses := ["Car"],
        remoteClasses := [], remoteObjects := [], nextAddr := 0, nextIdNum := 0 }
      (.node "Car" false [] .plainRoot)
      [("_owner", false, JVal.vstr "Fred")]
      "3"
      (Wire.wobj (some "3") none none (some "Car") none)
      []
      { localObjectsToIDs := [], localIDsToObjects := [], localClasses := ["Car"],
        remoteClasses := [], remoteObjects := [], nextAddr := 0, nextIdNum := 0 }
      ?_
    simp [createObjectDescription, protoName, mapDescrFields, startsWithUnderscore,
      bind, Except.bind]
  · exact c9_property_filter.2
      { localObjectsToIDs := [], localIDsToObjects := [], localClasses := [],
        remoteClasses := [], remoteObjects := [], nextAddr := 0, nextIdNum := 0 }
      "Car" _

theorem getOrCreate_localClasses (st : St) (v : JVal) :
    (getOrCreateIDForLocalObject st v).2.localClasses = st.localClasses := by
  unfold getOrCreateIDForLocalObject generateNewObjID
  cases addrOf v with
  | none => rfl
  | some a =>
      cases h : alookup st.localObjectsToIDs a <;> simp [h]

theorem sendClass_fresh (p : Proto) : ∀ st : St, p ≠ .plainRoot →
    (∀ n ∈ chainNames p, n ∉ st.localClasses) → (chainNames p).Nodup →
    (sendClassDescription st (protoName p) p).1.map ClassDescr.className
      = (chainNames p).reverse := by
  induction p with
  | plainRoot => intro st h _ _; exact absurd rfl h
  | node cn it ms parent ih =>
      intro st _ hfresh hnd
      have hn1 : protoName (.node cn it ms parent) ∉ st.localClasses :=
        hfresh _ (by rw [chainNames]; exact List.mem_cons_self _ _)
      by_cases h2 : protoName parent = "Object"
      · simp [sendClassDescription, hn1, h2, chainNames]
      · have hchain : chainNames (.node cn it ms parent)
            = protoName (.node cn it ms parent) :: chainNames parent := by
          rw [chainNames]
          simp [h2]
        have hpnode : parent ≠ Proto.plainRoot := by
          intro hp
          rw [hp] at h2
          exact h2 rfl
        have hfr2 : ∀ n ∈ chainNames parent,
            n ∉ ({ st with localClasses
                := protoName (.node cn it ms parent) :: st.localClasses } : St).localClasses := by
          intro n hn
          simp only [List.mem_cons, not_or]
          constructor
          · intro hEq
            rw [hchain] at hnd
            exact (List.nodup_cons.1 hnd).1 (hEq ▸ hn)
          · exact hfresh n (by rw [hchain]; exact List.mem_cons_of_mem _ hn)
        have hnd2 : (chainNames parent).Nodup := by
          rw [hchain] at hnd
          exact (List.nodup_cons.1 hnd).2
        have hrec := ih _ hpnode hfr2 hnd2
        simp [sendClassDescription, hn1, h2, hchain, hrec]

/-- C4: class-before-instance.  Marshalling a classed object whose chain of
class names is not yet described emits, as its observable message sequence,
first the class descriptions of the whole prototype chain in root-first
order (each parent before its child, each `class` verb awaited before the
next message), possibly further class messages for classes referenced by
property values, and only then, last, the `{idLocal, className, properties}`
instance payload. -/
theorem c4_class_before_instance (st : St) (a : Addr) (p : Proto)
    (props : List (String × Bool × JVal)) (w : Wire) (tr : List ClassDescr) (st1 : St)
    (hnode : p ≠ .plainRoot) (hcn : protoName p ≠ "Object")
    (hfresh : ∀ n ∈ chainNames p, n ∉ st.localClasses) (hnd : (chainNames p).Nodup)
    (hrun : mapOutgoingObjects st (.vobj a p props) = .ok (w, tr, st1)) :
    ∃ (ds rest : List ClassDescr) (idv : ObjId) (properties : Option (List (String × Wire))),
      emittedSeq tr w
        = ds.map Msg.classMsg ++ rest.map Msg.classMsg
            ++ [Msg.instanceMsg (.wobj (some idv) none none (some (protoName p)) properties)] ∧
      ds.map ClassDescr.className = (chainNames p).reverse := by
  rw [mapOutgoingObjects, if_neg hcn] at hrun
  have hhead : protoName p ∈ chainNames p := by
    cases p with
    | plainRoot => exact absurd rfl hnode
    | node cn it ms parent => rw [chainNames]; exact List.mem_cons_self _ _
  have hcon : ((getOrCreateIDForLocalObject st (.vobj a p props)).2.localClasses.contains
      (protoName p)) = false := by
    rw [getOrCreate_localClasses]
    simpa using hfresh _ hhead
  rw [createObjectDescription] at hrun
  rw [if_neg (by simp only [hcon]; exact Bool.false_ne_true)] at hrun
  rcases exceptBind_ok hrun with ⟨r, hr, hret⟩
  have h2 := Except.ok.inj hret
  have hw := congrArg Prod.fst h2
  have htr := congrArg (fun q => q.2.1) h2
  simp only at hw htr
  refine ⟨(sendClassDescription (getOrCreateIDForLocalObject st (.vobj a p props)).2
      (protoName p) p).1, r.2.1, (getOrCreateIDForLocalObject st (.vobj a p props)).1,
      (if r.1.isEmpty then none else some r.1), ?_, ?_⟩
  · rw [emittedSeq, ← htr, ← hw]
    simp [List.map_append]
  · have hfr : ∀ n ∈ chainNames p,
        n ∉ (getOrCreateIDForLocalObject st (.vobj a p props)).2.localClasses := by
      rw [getOrCreate_localClasses]
      exact hfresh
    exact sendClass_fresh p _ hnode hfr hnd

/-- C4 witness: marshalling the first `Car extends Movable` instance emits
the `Movable` description, then the `Car` description, then the instance
payload. -/
theorem c4_class_before_instance_witness :
    ∃ (ds rest : List ClassDescr) (idv : ObjId) (properties : Option (List (String × Wire))),
      emittedSeq
        [{ className := "Movable", iterator := none, extendsC := none,
           functions := [], getters := [], propNames := [] },
         { className := "Car", iterator := none, extendsC := some "Movable",
           functions := [], getters := [], propNames := [] }]
        (.wobj (some "0") none none (some "Car") none)
      = ds.map Msg.classMsg ++ rest.map Msg.classMsg
          ++ [Msg.instanceMsg (.wobj (some idv) none none
                (some (protoName (.node "Car" false [] (.node "Movable" false [] .plainRoot))))
                properties)] ∧
      ds.map ClassDescr.className
        = (chainNames (.node "Car" false [] (.node "Movable" false [] .plainRoot))).reverse :=
  c4_class_before_instance
    { localObjectsToIDs := [], localIDsToObjects := [], localClasses := [],
      remoteClasses := [], remoteObjects := [], nextAddr := 0, nextIdNum := 0 }
    0 (.node "Car" false [] (.node "Movable" false [] .plainRoot)) []
    (.wobj (some "0") none none (some "Car") none)
    [{ className := "Movable", iterator := none, extendsC := none,
       functions := [], getters := [], propNames := [] },
     { className := "Car", iterator := none, extendsC := some "Movable",
       functions := [], getters := [], propNames := [] }]
    { localObjectsToIDs := [(0, "0")],
      localIDsToObjects := [("0", LocalEntry.strong
        (.vobj 0 (.node "Car" false [] (.node "Movable" false [] .plainRoot)) []))],
      localClasses := ["Movable", "Car"], remoteClasses := [], remoteObjects := [],
      nextAddr := 0, nextIdNum := 1 }
    (by simp) (by simp [protoName])
    (by simp [chainNames, protoName]) (by simp [chainNames, protoName])
    (by simp [mapOutgoingObjects, createObjectDescription, getOrCreateIDForLocalObject,
      generateNewObjID, addrOf, alookup, aset, sendClassDescription, descrLists,
      iterTagOf, protoChainHasKey, protoChainHasSymIterator, protoName,
      mapDescrFields, bind, Except.bind, show toString (0:Nat) = "0" from rfl])

/-! Step equations of the marshallers, used to reason about one unfolding
at a time. -/

theorem mapOutgoing_plain_step (stO : St) (a : Addr) (ps : List (String × Bool × JVal)) :
    mapOutgoingObjects stO (.vobj a .plainRoot ps)
      = (do
          let r ← mapOutgoingPlainFields stO ps
          Except.ok (.wobj none none (some r.1) none none, r.2.1, r.2.2)) := by
  simp [mapOutgoingObjects, protoName]

theorem mapIncoming_plainObj_step (stI : St) (ms : List (String × Wire)) :
    mapIncomingObjects stI (.wobj none none (some ms) none none)
      = (do
          let r ← mapIncomingFields { stI with nextAddr := stI.nextAddr + 1 } ms
          Except.ok (.vobj stI.nextAddr .plainRoot (r.1.map (fun e => (e.1, false, e.2))), r.2)) := by
  simp [mapIncomingObjects, truthyS]

theorem mapOutgoingPlainFields_nil (st : St) :
    mapOutgoingPlainFields st [] = .ok ([], [], st) := by
  simp [mapOutgoingPlainFields]

theorem mapOutgoingPlainFields_cons (st : St) (n : String) (g : Bool) (v : JVal)
    (rest : List (String × Bool × JVal)) :
    mapOutgoingPlainFields st ((n, g, v) :: rest)
      = (do
          let r1 ← mapOutgoingObjects st v
          let r2 ← mapOutgoingPlainFields r1.2.2 rest
          Except.ok ((n, r1.1) :: r2.1, r1.2.1 ++ r2.2.1, r2.2.2)) := by
  simp [mapOutgoingPlainFields]

theorem mapIncomingFields_nil (st : St) :
    mapIncomingFields st [] = .ok ([], st) := by
  simp [mapIncomingFields]

theorem mapIncomingFields_cons (st : St) (n : String) (w : Wire)
    (rest : List (String × Wire)) :
    mapIncomingFields st ((n, w) :: rest)
      = (do
          let r1 ← mapIncomingObjects st w
          let r2 ← mapIncomingFields r1.2 rest
          Except.ok ((n, r1.1) :: r2.1, r2.2)) := by
  simp [mapIncomingFields]

theorem onlyAllocates_refl (st : St) : OnlyAllocates st st :=
  ⟨rfl, Nat.le_refl _⟩

theorem onlyAllocates_trans (st1 st2 st3 : St)
    (h1 : OnlyAllocates st1 st2) (h2 : OnlyAllocates st2 st3) :
    OnlyAllocates st1 st3 := by
  obtain ⟨he1, hl1⟩ := h1
  obtain ⟨he2, hl2⟩ := h2
  constructor
  · rw [he2, he1]
  · exact Nat.le_trans hl1 hl2

theorem onlyAllocates_bump (st : St) :
    OnlyAllocates st { st with nextAddr := st.nextAddr + 1 } :=
  ⟨rfl, Nat.le_succ _⟩

theorem c3_aux (N : Nat) :
    (∀ v : JVal, sizeOf v ≤ N → (isPrim v || isPlainRec v) = true → PlainOutIn v) ∧
    (∀ ps : List (String × Bool × JVal), sizeOf ps ≤ N → plainFields ps = true →
      PlainFieldsOutIn ps) := by
  induction N using Nat.strong_induction_on with
  | _ N ih =>
    constructor
    · intro v hsz hv
      match v with
      | .vstr s =>
          intro stO
          refine ⟨.wstr s, by simp [mapOutgoingObjects], by intro h; simp [isPlainRec] at h, ?_⟩
          intro stI
          exact ⟨.vstr s, stI, by simp [mapIncomingObjects], by simp [structEq],
            onlyAllocates_refl stI, by intro h; simp [isPlainRec] at h⟩
      | .vnum n =>
          intro stO
          refine ⟨.wnum n, by simp [mapOutgoingObjects], by intro h; simp [isPlainRec] at h, ?_⟩
          intro stI
          exact ⟨.vnum n, stI, by simp [mapIncomingObjects], by simp [structEq],
            onlyAllocates_refl stI, by intro h; simp [isPlainRec] at h⟩
      | .vbool b =>
          intro stO
          refine ⟨.wbool b, by simp [mapOutgoingObjects], by intro h; simp [isPlainRec] at h, ?_⟩
          intro stI
          exact ⟨.vbool b, stI, by simp [mapIncomingObjects], by simp [structEq],
            onlyAllocates_refl stI, by intro h; simp [isPlainRec] at h⟩
      | .vnull =>
          intro stO
          refine ⟨.wnull, by simp [mapOutgoingObjects], by intro h; simp [isPlainRec] at h, ?_⟩
          intro stI
          exact ⟨.vnull, stI, by simp [mapIncomingObjects], by simp [structEq],
            onlyAllocates_refl stI, by intro h; simp [isPlainRec] at h⟩
      | .vundef => simp [isPrim, isPlainRec] at hv
      | .varr xs => simp [isPrim, isPlainRec] at hv
      | .vfunc a => simp [isPrim, isPlainRec] at hv
      | .vstub a i c ps => simp [isPrim, isPlainRec] at hv
      | .vobj a p ps =>
          have hp : p = Proto.plainRoot ∧ plainFields ps = true := by
            cases p with
            | plainRoot => simpa [isPrim, isPlainRec] using hv
            | node cn it ms parent => simp [isPrim, isPlainRec] at hv
          obtain ⟨hp1, hp2⟩ := hp
          subst hp1
          have hlt : sizeOf ps < N := by
            have h1 : sizeOf ps < sizeOf (JVal.vobj a .plainRoot ps) := by
              simp_arith
            omega
          have hps := (ih (sizeOf ps) hlt).2 ps (Nat.le_refl _) hp2
          intro stO
          obtain ⟨ms, hout, hin⟩ := hps stO
          refine ⟨.wobj none none (some ms) none none, ?_, ?_, ?_⟩
          · rw [mapOutgoing_plain_step, hout]
            simp [bind, Except.bind]
          · intro _
            exact ⟨ms, rfl⟩
          · intro stI
            obtain ⟨fs, st2, hfin, hfeq, hfal⟩ := hin { stI with nextAddr := stI.nextAddr + 1 }
            refine ⟨.vobj stI.nextAddr .plainRoot (fs.map (fun e => (e.1, false, e.2))), st2,
              ?_, ?_, ?_, ?_⟩
            · rw [mapIncoming_plainObj_step, hfin]
              simp [bind, Except.bind]
            · simpa [structEq] using hfeq
            · exact onlyAllocates_trans _ _ _ (onlyAllocates_bump stI) hfal
            · intro _
              simp [rootAddr]
    · intro ps hsz hps
      match ps with
      | [] =>
          intro stO
          refine ⟨[], mapOutgoingPlainFields_nil stO, ?_⟩
          intro stI
          exact ⟨[], stI, mapIncomingFields_nil stI, by simp [structEqFields],
            onlyAllocates_refl stI⟩
      | (n, g, v) :: rest =>
          have hsplit : g = false ∧ (isPrim v || isPlainRec v) = true ∧
              plainFields rest = true := by
            rw [plainFields] at hps
            simp at hps
            exact ⟨hps.1.1, by simpa using hps.1.2, hps.2⟩
          obtain ⟨hg, hv, hrest⟩ := hsplit
          subst hg
          have hltv : sizeOf v < N := by
            have h1 : sizeOf v < sizeOf (((n, false, v) :: rest) :
                List (String × Bool × JVal)) := by
              simp_arith
            omega
          have hltr : sizeOf rest < N := by
            have h1 : sizeOf rest < sizeOf (((n, false, v) :: rest) :
                List (String × Bool × JVal)) := by
              simp_arith
            omega
          have hQv := (ih (sizeOf v) hltv).1 v (Nat.le_refl _) hv
          have hQr := (ih (sizeOf rest) hltr).2 rest (Nat.le_refl _) hrest
          intro stO
          obtain ⟨wv, hvout, _, hvin⟩ := hQv stO
          obtain ⟨msr, hrout, hrin⟩ := hQr stO
          refine ⟨(n, wv) :: msr, ?_, ?_⟩
          · rw [mapOutgoingPlainFields_cons, hvout]
            simp only [bind, Except.bind]
            rw [hrout]
            simp
          · intro stI
            obtain ⟨v2, stA, hvinc, hveq, hval, _⟩ := hvin stI
            obtain ⟨fsr, st2, hrinc, hreq, hral⟩ := hrin stA
            refine ⟨(n, v2) :: fsr, st2, ?_, ?_, ?_⟩
            · rw [mapIncomingFields_cons, hvinc]
              simp only [bind, Except.bind]
              rw [hrinc]
            · simp [structEqFields, hveq, hreq]
            · exact onlyAllocates_trans _ _ _ hval hral

/-- C3: plain-record round-trip is a deep copy.  A plain record marshals
out as `{plainObject: m}` with no class messages and no registry change;
unmarshalling that wire form yields a fresh field bag — a new identity,
allocated at the receiver's counter, distinct from the original object —
that is structurally equal to the original, and the receiving state is
changed in nothing but its allocation counter. -/
theorem c3_plain_record_deep_copy (v : JVal) (hpl : isPlainRec v = true)
    (stO stI : St) (hlive : rootAddr v < stI.nextAddr) :
    ∃ (m : List (String × Wire)) (v2 : JVal) (st2 : St),
      mapOutgoingObjects stO v = .ok (.wobj none none (some m) none none, [], stO) ∧
      mapIncomingObjects stI (.wobj none none (some m) none none) = .ok (v2, st2) ∧
      structEq v v2 = true ∧
      rootAddr v2 ≠ rootAddr v ∧
      OnlyAllocates stI st2 := by
  have hQ := (c3_aux (sizeOf v)).1 v (Nat.le_refl _) (by simp [hpl])
  obtain ⟨w, hout, hshape, hin⟩ := hQ stO
  obtain ⟨m, hm⟩ := hshape hpl
  subst hm
  obtain ⟨v2, st2, hinc, heq, hal, haddr⟩ := hin stI
  refine ⟨m, v2, st2, hout, hinc, heq, ?_, hal⟩
  rw [haddr hpl]
  exact (Nat.ne_of_lt hlive).symm

/-- C3 witness: the record `{a: 1, b: {c: 2}}` round-trips as a deep
copy. -/
theorem c3_plain_record_deep_copy_witness :
    ∃ (m : List (String × Wire)) (v2 : JVal) (st2 : St),
      mapOutgoingObjects
        { localObjectsToIDs := [], localIDsToObjects := [], localClasses := [],
          remoteClasses := [], remoteObjects := [], nextAddr := 9, nextIdNum := 0 }
        (.vobj 3 .plainRoot
          [("a", false, .vnum 1), ("b", false, .vobj 4 .plainRoot [("c", false, .vnum 2)])])
        = .ok (.wobj none none (some m) none none, [],
            { localObjectsToIDs := [], localIDsToObjects := [], localClasses := [],
              remoteClasses := [], remoteObjects := [], nextAddr := 9, nextIdNum := 0 }) ∧
      mapIncomingObjects
        { localObjectsToIDs := [], localIDsToObjects := [], localClasses := [],
          remoteClasses := [], remoteObjects := [], nextAddr := 9, nextIdNum := 0 }
        (.wobj none none (some m) none none) = .ok (v2, st2) ∧
      structEq
        (.vobj 3 .plainRoot
          [("a", false, .vnum 1), ("b", false, .vobj 4 .plainRoot [("c", false, .vnum 2)])])
        v2 = true ∧
      rootAddr v2 ≠ rootAddr (.vobj 3 .plainRoot
          [("a", false, .vnum 1), ("b", false, .vobj 4 .plainRoot [("c", false, .vnum 2)])]) ∧
      OnlyAllocates
        { localObjectsToIDs := [], localIDsToObjects := [], localClasses := [],
          remoteClasses := [], remoteObjects := [], nextAddr := 9, nextIdNum := 0 } st2 :=
  c3_plain_record_deep_copy
    (.vobj 3 .plainRoot
      [("a", false, .vnum 1), ("b", false, .vobj 4 .plainRoot [("c", false, .vnum 2)])])
    (by simp [isPlainRec, plainFields, isPrim])
    { localObjectsToIDs := [], localIDsToObjects := [], localClasses := [],
      remoteClasses := [], remoteObjects := [], nextAddr := 9, nextIdNum := 0 }
    { localObjectsToIDs := [], localIDsToObjects := [], localClasses := [],
      remoteClasses := [], remoteObjects := [], nextAddr := 9, nextIdNum := 0 }
    (by simp [rootAddr])

end Jpc
